/-
  Verification of the yaar API-router core against its specification.

  The development embeds the JavaScript source shallowly:
  * `JSVal` models JavaScript values with the truthiness notion the code
    relies on (`truthy`).
  * `expressionMatchesVersion` embeds lib/version-match.js.
  * `runCallMiddleware` embeds the middleware runner of lib/utils.js.
  * Registration state machines embed APIRouter / VersionRouter /
    JSONRPCInterface registration and call dispatch.
  * Response builders embed the JSON-RPC and HTTP-RPC serialization
    branches, and the streaming chunk framing.
  * `KeepAlive` embeds lib/keep-alive.js over an explicit timer world.
-/
import Mathlib
/-! JavaScript value model -/

/-- A model of the JavaScript values flowing through the router:
`undefined`, `null`, booleans, (integer) numbers, strings, arrays and
plain objects.  Floating point values do not occur in the verified code
paths, so numbers are modelled as integers. -/
inductive JSVal where
  | undef : JSVal
  | null : JSVal
  | bool (b : Bool) : JSVal
  | num (n : Int) : JSVal
  | str (s : String) : JSVal
  | arr (elems : List JSVal) : JSVal
  | obj (fields : List (String × JSVal)) : JSVal
deriving Inhabited

/-- JavaScript truthiness of a `JSVal`: `undefined`, `null`, `false`,
`0` and `""` are falsy; every other value (objects and arrays included)
is truthy. -/
def truthy : JSVal → Bool
  | JSVal.undef => false
  | JSVal.null => false
  | JSVal.bool b => b
  | JSVal.num n => n != 0
  | JSVal.str s => !s.isEmpty
  | JSVal.arr _ => true
  | JSVal.obj _ => true

/-- Field lookup on a modelled JavaScript object field list. -/
def lookupField (fields : List (String × JSVal)) (k : String) : Option JSVal :=
  (fields.find? (fun p => p.1 == k)).map (fun p => p.2)

/-! Version match expressions (lib/version-match.js)

`expressionMatchesVersion(expr, version)` recursively evaluates a match
expression.  The embedding follows the source branch by branch:

* arrays: `_.some(expr, subExpr => expressionMatchesVersion(subExpr, version))`;
* plain numbers: `expr === version`;
* non-strings beyond that: `throw new Error('Invalid API version expression')`;
* strings split on `','`; a multi-part split recurses over the parts
  (each part is comma-free, so that recursion lands in the
  single-expression string branch, embedded as `matchSingle`);
* single strings go through the numeric-coercion branch and the three
  regular shapes in source order.
-/

/-- The single failure mode of the matcher, `throw new Error('Invalid API
version expression')`. -/
inductive VMError where
  | invalidExpression : VMError
deriving Repr, DecidableEq

/-- Numeric value of a digit character. -/
def digitVal (c : Char) : Nat := c.toNat - 48

/-- Value of a decimal digit string, most significant digit first
(the value `+expr` or a regex capture group denotes in the source). -/
def digitsVal (l : List Char) : Nat :=
  l.foldl (fun acc c => acc * 10 + digitVal c) 0

/-- Result of JavaScript numeric coercion `+expr` as far as the matcher
observes it: the matcher tests `isNaN(+expr)` and compares
`+expr === version` against an integer version, so a coerced number only
matters as "NaN", "the integer n", or "a number that is not an
integer" (fractions, infinities). -/
inductive JSCoerce where
  | nan : JSCoerce
  | intVal (n : Int) : JSCoerce
  | nonIntVal : JSCoerce
deriving Repr, DecidableEq

/-- ASCII whitespace stripped by JavaScript string-to-number coercion
(space, tab, line feed, carriage return; Unicode space characters do not
occur in version expressions and are outside the model). -/
def isJSSpace (c : Char) : Bool :=
  c == ' ' || c == '\t' || c == '\n' || c == '\r'

/-- Strip leading and trailing JS whitespace. -/
def trimJS (l : List Char) : List Char :=
  ((l.dropWhile isJSSpace).reverse.dropWhile isJSSpace).reverse

/-- Hexadecimal digit test. -/
def isHexDigit (c : Char) : Bool :=
  c.isDigit || (decide ('a' ≤ c) && decide (c ≤ 'f'))
    || (decide ('A' ≤ c) && decide (c ≤ 'F'))

/-- Value of a hexadecimal digit. -/
def hexDigitVal (c : Char) : Nat :=
  if c.isDigit then digitVal c
  else if decide ('a' ≤ c) && decide (c ≤ 'f') then c.toNat - 87
  else c.toNat - 55

/-- Value of a hexadecimal digit string. -/
def hexVal (l : List Char) : Nat :=
  l.foldl (fun acc c => acc * 16 + hexDigitVal c) 0

/-- Binary digit test. -/
def isBinDigit (c : Char) : Bool := c == '0' || c == '1'

/-- Value of a binary digit string. -/
def binVal (l : List Char) : Nat :=
  l.foldl (fun acc c => acc * 2 + digitVal c) 0

/-- Octal digit test. -/
def isOctDigit (c : Char) : Bool := decide ('0' ≤ c) && decide (c ≤ '7')

/-- Value of an octal digit string. -/
def octVal (l : List Char) : Nat :=
  l.foldl (fun acc c => acc * 8 + digitVal c) 0

/-- Parse the optional exponent part of a JS decimal literal:
empty means exponent `0`; otherwise `e`/`E`, an optional sign and a
nonempty digit run; anything else is a syntax error (`none`). -/
def parseExpPart (l : List Char) : Option Int :=
  match l with
  | [] => some 0
  | c :: rest =>
    if c = 'e' ∨ c = 'E' then
      match rest with
      | [] => none
      | s :: ds =>
        if s = '+' then
          if !ds.isEmpty && ds.all Char.isDigit then some ((digitsVal ds : Int))
          else none
        else if s = '-' then
          if !ds.isEmpty && ds.all Char.isDigit then some (-(digitsVal ds : Int))
          else none
        else if (s :: ds).all Char.isDigit then some ((digitsVal (s :: ds) : Int))
        else none
    else none

/-- Exact value of a signed decimal significand times `10 ^ scale`,
classified as an integer or a non-integer number. -/
def mkDecimal (neg : Bool) (mant : Nat) (scale : Int) : JSCoerce :=
  if 0 ≤ scale then
    JSCoerce.intVal ((if neg then -(mant : Int) else (mant : Int)) * 10 ^ scale.toNat)
  else
    if (mant : Int) % (10 ^ (-scale).toNat : Int) == 0 then
      JSCoerce.intVal (if neg then -((mant : Int) / (10 ^ (-scale).toNat : Int))
                       else ((mant : Int) / (10 ^ (-scale).toNat : Int)))
    else JSCoerce.nonIntVal

/-- Parse an unsigned JS decimal literal
(`digits [. digits] [exp]` or `. digits [exp]`). -/
def parseDecimal (neg : Bool) (l : List Char) : JSCoerce :=
  match l.dropWhile Char.isDigit with
  | [] =>
    if (l.takeWhile Char.isDigit).isEmpty then JSCoerce.nan
    else mkDecimal neg (digitsVal (l.takeWhile Char.isDigit)) 0
  | c :: r2 =>
    if c = '.' then
      if (l.takeWhile Char.isDigit).isEmpty && (r2.takeWhile Char.isDigit).isEmpty
      then JSCoerce.nan
      else
        match parseExpPart (r2.dropWhile Char.isDigit) with
        | some e =>
          mkDecimal neg
            (digitsVal (l.takeWhile Char.isDigit ++ r2.takeWhile Char.isDigit))
            (e - ((r2.takeWhile Char.isDigit).length : Int))
        | none => JSCoerce.nan
    else
      if (l.takeWhile Char.isDigit).isEmpty then JSCoerce.nan
      else
        match parseExpPart (c :: r2) with
        | some e => mkDecimal neg (digitsVal (l.takeWhile Char.isDigit)) e
        | none => JSCoerce.nan

/-- Parse `Infinity` (comparing unequal to every integer version) or a
decimal literal. -/
def parseDecOrInf (neg : Bool) (l : List Char) : JSCoerce :=
  if l = ['I', 'n', 'f', 'i', 'n', 'i', 't', 'y'] then JSCoerce.nonIntVal
  else parseDecimal neg l

/-- Parse the unsigned non-decimal integer literals `0x…`, `0b…`, `0o…`
(a sign is not allowed before these in JS). -/
def parseRadixJS (l : List Char) : Option JSCoerce :=
  match l with
  | c0 :: c1 :: rest =>
    if c0 = '0' ∧ (c1 = 'x' ∨ c1 = 'X') then
      some (if !rest.isEmpty && rest.all isHexDigit
            then JSCoerce.intVal (hexVal rest) else JSCoerce.nan)
    else if c0 = '0' ∧ (c1 = 'b' ∨ c1 = 'B') then
      some (if !rest.isEmpty && rest.all isBinDigit
            then JSCoerce.intVal (binVal rest) else JSCoerce.nan)
    else if c0 = '0' ∧ (c1 = 'o' ∨ c1 = 'O') then
      some (if !rest.isEmpty && rest.all isOctDigit
            then JSCoerce.intVal (octVal rest) else JSCoerce.nan)
    else none
  | _ => none

/-- JavaScript numeric coercion `+expr` (the ECMAScript StringToNumber
grammar): trim whitespace; the empty remainder coerces to `0`; then a
non-decimal integer literal, or an optionally signed decimal literal
(with optional fraction and exponent) or `Infinity`; anything else — for
example `"1a"`, `"5_7"`, `"5-7"` — is NaN.  Arithmetic is exact: the
model diverges from IEEE doubles only through rounding at magnitudes
beyond 2^53 and overflow/underflow at extreme exponents, which do not
occur in version expressions. -/
def jsStrToNum (l : List Char) : JSCoerce :=
  if (trimJS l).isEmpty then JSCoerce.intVal 0
  else
    match parseRadixJS (trimJS l) with
    | some r => r
    | none =>
      match trimJS l with
      | [] => JSCoerce.nan
      | c :: rest =>
        if c = '+' then parseDecOrInf false rest
        else if c = '-' then parseDecOrInf true rest
        else parseDecOrInf false (c :: rest)

/-- Test for `isNaN(+expr)`. -/
def jsCoerceIsNaN : JSCoerce → Bool
  | JSCoerce.nan => true
  | _ => false

/-- Strict comparison `+expr === version` against an integer version:
true exactly when the coercion produced that integer. -/
def jsCoerceEqInt : JSCoerce → Int → Bool
  | JSCoerce.intVal n, v => n == v
  | _, _ => false

/-- Model of `String.prototype.split(',')` on a character list: `splitComma []`
is `[[]]` (as `''.split(',') === ['']`). -/
def splitComma : List Char → List (List Char)
  | [] => [[]]
  | c :: rest =>
    if c = ',' then [] :: splitComma rest
    else
      match splitComma rest with
      | [] => [[c]]
      | p :: ps => (c :: p) :: ps

/-- The regex `^([0-9]+)[+-]$` of the source: a nonempty digit group
followed by a single `'+'` or `'-'`.  Returns the captured number. -/
def reOpenEnded (l : List Char) : Option Nat :=
  match l.dropWhile Char.isDigit with
  | [c] =>
    if (c == '+' || c == '-') && !(l.takeWhile Char.isDigit).isEmpty
    then some (digitsVal (l.takeWhile Char.isDigit)) else none
  | _ => none

/-- The regex `^-([0-9]+)$` of the source. -/
def reUpTo (l : List Char) : Option Nat :=
  match l with
  | [] => none
  | c :: rest =>
    if (c == '-') && !rest.isEmpty && rest.all Char.isDigit then some (digitsVal rest) else none

/-- The regex `^([0-9]+)-([0-9]+)$` of the source: since `[0-9]` excludes
`'-'`, the first group is exactly the maximal digit run. -/
def reRange (l : List Char) : Option (Nat × Nat) :=
  match l.dropWhile Char.isDigit with
  | [] => none
  | c :: rest =>
    if (c == '-') && !(l.takeWhile Char.isDigit).isEmpty && !rest.isEmpty
        && rest.all Char.isDigit
    then some (digitsVal (l.takeWhile Char.isDigit), digitsVal rest) else none

/-- The single-expression string branch of `expressionMatchesVersion`:
first `expr[0] !== '-' && !isNaN(+expr)` (then `+expr === version`, else
fall through to the final `return false`), then the three regular shapes
in source order, else `throw`. -/
def matchSingle (l : List Char) (v : Int) : Except VMError Bool :=
  if (l.head? != some '-') && !(jsCoerceIsNaN (jsStrToNum l)) then
    Except.ok (jsCoerceEqInt (jsStrToNum l) v)
  else
    match reOpenEnded l with
    | some n => Except.ok (decide (v ≥ (n : Int)))
    | none =>
      match reUpTo l with
      | some n => Except.ok (decide (v ≤ (n : Int)))
      | none =>
        match reRange l with
        | some (n, m) => Except.ok (decide ((n : Int) ≤ v ∧ v ≤ (m : Int)))
        | none => Except.error VMError.invalidExpression

/-- Lodash `_.some` over the comma-split parts: stop at the first part that
matches; an invalid part reached before a match propagates the failure. -/
def matchParts : List (List Char) → Int → Except VMError Bool
  | [], _ => Except.ok false
  | p :: rest, v =>
    match matchSingle p v with
    | Except.ok true => Except.ok true
    | Except.ok false => matchParts rest v
    | Except.error e => Except.error e

/-- The string branch of `expressionMatchesVersion`: split on `','`; with
more than one part recurse over the parts (each part is comma-free, so
the recursive call reduces to `matchSingle`; see
`matchStringExpr_no_comma`), otherwise evaluate the single expression. -/
def matchStringExpr (l : List Char) (v : Int) : Except VMError Bool :=
  if (splitComma l).length > 1 then matchParts (splitComma l) v
  else matchSingle l v

mutual

/-- The function `expressionMatchesVersion(expr, version)` of lib/version-match.js. -/
def expressionMatchesVersion : JSVal → Int → Except VMError Bool
  | JSVal.arr l, v => someExprMatches l v
  | JSVal.num n, v => Except.ok (decide (n = v))
  | JSVal.str s, v => matchStringExpr s.data v
  | _, _ => Except.error VMError.invalidExpression

/-- Lodash `_.some` over array elements, short-circuiting at the first match. -/
def someExprMatches : List JSVal → Int → Except VMError Bool
  | [], _ => Except.ok false
  | e :: rest, v =>
    match expressionMatchesVersion e v with
    | Except.ok true => Except.ok true
    | Except.ok false => someExprMatches rest v
    | Except.error err => Except.error err

end

/-! Middleware runner (lib/utils.js `runCallMiddleware`)

A middleware receives the mutable context, may mutate it (modelled by
returning the updated context) and finishes either by returning/resolving
a value or by throwing/rejecting an error.  `pasync.eachSeries` runs the
list strictly in order, which the embedding realizes as a left fold.  The
type parameter `σ` carries arbitrary middleware-visible state (any extra
context properties), so that side effects of skipped middleware are
observable in the theorems. -/

/-- How one middleware invocation finishes: `ret v` models a plain return
or a resolved awaitable, `exn e` a synchronous throw or a rejection. -/
inductive MWOutcome where
  | ret (v : JSVal) : MWOutcome
  | exn (e : JSVal) : MWOutcome

/-- The call context of one API invocation, restricted to the fields
`runCallMiddleware` touches plus opaque extra state `σ`. -/
structure MWContext (σ : Type) where
  result : JSVal := JSVal.undef
  error : JSVal := JSVal.undef
  extraErrors : Option (List JSVal) := none
  state : σ

/-- A middleware function: reads the context, returns the mutated context
together with its outcome. -/
def Middleware (σ : Type) : Type := MWContext σ → MWContext σ × MWOutcome

/-- Model of `if (!ctx.extraErrors) ctx.extraErrors = []; ctx.extraErrors.push(err)`. -/
def pushExtraError (o : Option (List JSVal)) (e : JSVal) : Option (List JSVal) :=
  match o with
  | none => some [e]
  | some l => some (l ++ [e])

/-- The fallback `new XError(XError.INTERNAL_ERROR, 'Error in request
middleware')` used when a middleware rejects with a falsy value. -/
def internalMiddlewareError : JSVal :=
  JSVal.obj [("code", JSVal.str "internal_error"),
             ("message", JSVal.str "Error in request middleware")]

/-- One iteration of the `pasync.eachSeries` body in `runCallMiddleware`:
skip when a pre/call-phase context already has a truthy result or error;
otherwise invoke the middleware; a truthy returned value becomes
`ctx.result` in the pre/call phase; a thrown error goes to
`ctx.extraErrors` (post phase) or `ctx.error` (pre/call phase, with the
internal-error fallback for falsy throws). -/
def runMiddlewareStep (isPostMiddleware : Bool) (ctx : MWContext σ) (mw : Middleware σ) :
    MWContext σ :=
  if !isPostMiddleware && (truthy ctx.result || truthy ctx.error) then ctx
  else
    match mw ctx with
    | (ctx', MWOutcome.ret v) =>
      if !isPostMiddleware && truthy v then { ctx' with result := v } else ctx'
    | (ctx', MWOutcome.exn e) =>
      if isPostMiddleware then { ctx' with extraErrors := pushExtraError ctx'.extraErrors e }
      else { ctx' with error := if truthy e then e else internalMiddlewareError }

/-- The function `runCallMiddleware(context, isPostMiddleware, middlewares)` of
lib/utils.js: run the middleware list sequentially in order over the
context.  The promise chain never rejects, so the embedding is total. -/
def runCallMiddleware (ctx : MWContext σ) (isPostMiddleware : Bool)
    (mws : List (Middleware σ)) : MWContext σ :=
  mws.foldl (runMiddlewareStep isPostMiddleware) ctx

/-- The post-phase behavior spelled out without the (inapplicable)
short-circuit test and result write: invoke the middleware
unconditionally, ignore returned values, push thrown errors onto
`extraErrors`. -/
def postRunStep (ctx : MWContext σ) (mw : Middleware σ) : MWContext σ :=
  match mw ctx with
  | (ctx', MWOutcome.ret _) => ctx'
  | (ctx', MWOutcome.exn e) =>
    { ctx' with extraErrors := pushExtraError ctx'.extraErrors e }

/-! Registration and dispatch (lib/api-router.js, lib/version-router.js,
lib/json-rpc-interface.js)

`APIRouter.register(options, ...)` passes the *same* `options` object to
every matching `VersionRouter.register`, which mutates it
(`options.version = this.version`) and hands the same reference to every
attached interface's `register`.  The interface stores a closure over
that reference and reads `options.version` when a request arrives.  The
embedding makes the sharing explicit through a store of options objects
(`optionsStore`) addressed by identity (`Nat` index); closures hold the
index.

Routers are kept in ascending version order, matching `_.values` /
`_.forEach` over a JavaScript object whose integer-like keys iterate in
ascending numeric order (versions are created in ascending order in all
verified scenarios). -/

/-- One registration-options object (`register()`'s `options`): the
method name, the optional `versions` match expression, and the `version`
field stamped by `VersionRouter.register`. -/
structure RegOptions where
  method : String
  versions : Option JSVal
  version : Option Int
deriving Inhabited

/-- JavaScript object property assignment on a string-keyed association
list: overwrite an existing key in place, otherwise append. -/
def insertAssoc (m : List (String × Nat)) (k : String) (v : Nat) : List (String × Nat) :=
  if m.any (fun p => p.1 == k) then
    m.map (fun p => if p.1 == k then (k, v) else p)
  else m ++ [(k, v)]

/-- State of one transport adapter (`JSONRPCInterface`): its `methods`
map from method name to the registered handler closure, identified by
the options object the closure captured. -/
structure IfaceState where
  methods : List (String × Nat)

/-- State of one `VersionRouter`: its version, its `methods` record and
its attached interfaces. -/
structure VersionRouterState where
  version : Int
  methods : List (String × Nat)
  ifaces : List IfaceState

/-- State of the `APIRouter` façade: the identity-addressed store of
options objects and the version routers in ascending version order. -/
structure APIRouterState where
  optionsStore : List RegOptions
  routers : List VersionRouterState

/-- Assignment `options.version = v` on the shared options object `optsId`. -/
def setStampedVersion (store : List RegOptions) (optsId : Nat) (v : Int) :
    List RegOptions :=
  match store[optsId]? with
  | some o => store.set optsId { o with version := some v }
  | none => store

/-- The method `VersionRouter.register(options, ...middleware)`: stamp
`options.version` with this router's version (a mutation of the shared
object), record the method in `this.methods`, and forward the same
options reference to every attached interface, whose
`JSONRPCInterface.register` stores `this.methods[options.method] =` a
closure capturing that reference. -/
def versionRouterRegister (r : VersionRouterState) (store : List RegOptions)
    (optsId : Nat) : VersionRouterState × List RegOptions :=
  match store[optsId]? with
  | none => (r, store)
  | some o =>
    let store' := store.set optsId { o with version := some r.version }
    let r' := { r with
      methods := insertAssoc r.methods o.method optsId,
      ifaces := r.ifaces.map
        (fun f => { f with methods := insertAssoc f.methods o.method optsId }) }
    (r', store')

/-- The per-router test of `APIRouter._getMatchingVersionRouters`: absent
`options.versions` matches every currently existing router, otherwise
`expressionMatchesVersion(callOptions.versions, +version)` decides. -/
def routerMatches (versions : Option JSVal) (v : Int) : Except VMError Bool :=
  match versions with
  | none => Except.ok true
  | some expr => expressionMatchesVersion expr v

/-- Fan the registration out over the routers in order, threading the
shared options store; routers whose match flag is false are untouched. -/
def fanOutRegister (optsId : Nat) :
    List (VersionRouterState × Bool) → List RegOptions →
    List VersionRouterState × List RegOptions
  | [], store => ([], store)
  | (r, flag) :: rest, store =>
    if flag then
      ((versionRouterRegister r store optsId).1 ::
         (fanOutRegister optsId rest (versionRouterRegister r store optsId).2).1,
       (fanOutRegister optsId rest (versionRouterRegister r store optsId).2).2)
    else
      (r :: (fanOutRegister optsId rest store).1,
       (fanOutRegister optsId rest store).2)

/-- The method `APIRouter.register(options, ...middleware)`: create the (single,
shared) options object, resolve the matching version routers via
`expressionMatchesVersion`, and call `versionRouter.register` on each in
order.  An invalid `versions` expression propagates as the thrown
`Error`. -/
def apiRouterRegister (s : APIRouterState) (method : String)
    (versions : Option JSVal) : Except VMError APIRouterState := do
  let optsId := s.optionsStore.length
  let opts : RegOptions := { method := method, versions := versions, version := none }
  let flags ← s.routers.mapM (fun r => routerMatches versions r.version)
  let (routers', store') :=
    fanOutRegister optsId (s.routers.zip flags) (s.optionsStore ++ [opts])
  pure { optionsStore := store', routers := routers' }

/-- The method `APIRouter.version(n)`, get-or-create, followed by
`addInterface(new JSONRPCInterface(...))`: an existing router is
returned unchanged, a fresh one starts with empty method maps. -/
def apiRouterVersion (s : APIRouterState) (v : Int) : APIRouterState :=
  if s.routers.any (fun r => r.version == v) then s
  else
    { s with routers :=
        s.routers ++ [{ version := v, methods := [], ifaces := [{ methods := [] }] }] }

/-- The version the call context is stamped with when method
`methodName` is invoked through version `v`'s routes: the interface's
stored closure runs `handleAPICall`, which sets
`ctx.version = options.version`, reading the shared options object at
request time. -/
def contextVersionAt (s : APIRouterState) (v : Int) (methodName : String) :
    Option Int :=
  match s.routers.find? (fun r => r.version == v) with
  | none => none
  | some r =>
    match r.ifaces.head? with
    | none => none
    | some f =>
      match f.methods.find? (fun p => p.1 == methodName) with
      | none => none
      | some (_, optsId) =>
        match s.optionsStore[optsId]? with
        | none => none
        | some o => o.version

/-- Whether a router's `methods` record holds the given method name. -/
def hasMethod (r : VersionRouterState) (m : String) : Bool :=
  r.methods.any (fun p => p.1 == m)

/-- The empty router state. -/
def emptyAPIRouter : APIRouterState := { optionsStore := [], routers := [] }

/-! JSON-RPC and HTTP-RPC response serialization
(lib/json-rpc-interface.js, lib/http-rpc-interface.js) -/

/-- Modelled from the spec: the `xerror` library (an external
collaborator whose source is not part of this repository).
`XError.fromObject` preserves a structured error's `code`, `message`,
`data` and `cause` (falling back to an internal-error code when absent),
and `error.toObject({ includeStack })` emits the wire shape
`{ code, message, data?, cause?, stack? }` with `stack` present only
when `includeStack` is true. -/
def serializeXError (e : JSVal) (includeStack : Bool) : JSVal :=
  match e with
  | JSVal.obj fields =>
    JSVal.obj
      ((match lookupField fields "code" with
        | some c => [("code", c)]
        | none => [("code", JSVal.str "internal_error")])
      ++ (match lookupField fields "message" with
          | some m => [("message", m)]
          | none => [])
      ++ (match lookupField fields "data" with
          | some d => [("data", d)]
          | none => [])
      ++ (match lookupField fields "cause" with
          | some c => [("cause", c)]
          | none => [])
      ++ (if includeStack then
            match lookupField fields "stack" with
            | some st => [("stack", st)]
            | none => []
          else []))
  | _ =>
    JSVal.obj [("code", JSVal.str "internal_error"),
               ("message", JSVal.str "An internal error occurred")]

/-- The JSON-RPC wire body `{ id, result, error }`. -/
structure JSONRPCBody where
  id : JSVal
  result : JSVal
  error : JSVal

/-- The non-streaming, non-manual JSON-RPC request handling of
`JSONRPCInterface.register` / `handleAPICall` for a method registered
without a response schema: write the HTTP 200 header early, run
pre-, call- and post-middleware in order, then either serialize
`ctx.error` (`sendErrorRes`, `result` explicitly `null`) or send the
success body with `error: null` and `result` set only when `ctx.result`
is truthy. -/
def jsonrpcNonStreamingResponse (includeErrorStack : Bool) (reqId : JSVal)
    (pre call post : List (Middleware σ)) (ctx0 : MWContext σ) :
    Nat × JSONRPCBody :=
  let c1 := runCallMiddleware ctx0 false pre
  let c2 := runCallMiddleware c1 false call
  let c3 := runCallMiddleware c2 true post
  if truthy c3.error then
    (200, { id := reqId, result := JSVal.null,
            error := serializeXError c3.error includeErrorStack })
  else
    (200, { id := reqId,
            result := if truthy c3.result then c3.result else JSVal.null,
            error := JSVal.null })

/-- The HTTP-RPC response of `HTTPRPCInterface.register` for a method
without `manualResult` and without a response schema: run the three
middleware phases, then build `{}`, adding `result` when `ctx.result` is
truthy and `error` (serialized) when `ctx.error` is truthy, and send it
with `res.json` (HTTP 200). -/
def httprpcResponse (includeErrorStack : Bool)
    (pre call post : List (Middleware σ)) (ctx0 : MWContext σ) :
    Nat × Option JSVal × Option JSVal :=
  let c1 := runCallMiddleware ctx0 false pre
  let c2 := runCallMiddleware c1 false call
  let c3 := runCallMiddleware c2 true post
  (200,
   (if truthy c3.result then some c3.result else none),
   (if truthy c3.error then some (serializeXError c3.error includeErrorStack) else none))

/-! Streaming response framing (`handleAPICall` streaming branch and
`sendStreamEnd` of lib/json-rpc-interface.js and
api-interface-json-base.js) -/

/-- Join strings with a separator. -/
def joinStr (sep : String) : List String → String
  | [] => ""
  | [s] => s
  | s :: rest => s ++ sep ++ joinStr sep rest

/-- JSON string quoting used by `JSON.stringify` (escapes for the
characters that can occur in the verified payloads). -/
def jsonQuote (s : String) : String :=
  "\"" ++ String.mk (s.data.flatMap (fun c =>
    if c = '"' then ['\\', '"']
    else if c = '\\' then ['\\', '\\']
    else if c = '\n' then ['\\', 'n']
    else [c])) ++ "\""

mutual

/-- Model of `JSON.stringify` on modelled values.  (`JSON.stringify(undefined)`
is not a string; `undef` never occurs as a streamed item in the
verified scenarios and is mapped to `"null"`.) -/
def jsonStringify : JSVal → String
  | JSVal.undef => "null"
  | JSVal.null => "null"
  | JSVal.bool b => if b then "true" else "false"
  | JSVal.num n => toString n
  | JSVal.str s => jsonQuote s
  | JSVal.arr l => "[" ++ joinStr "," (jsonStringifyList l) ++ "]"
  | JSVal.obj fs => "\x7b" ++ joinStr "," (jsonStringifyFields fs) ++ "\x7d"

def jsonStringifyList : List JSVal → List String
  | [] => []
  | v :: rest => jsonStringify v :: jsonStringifyList rest

def jsonStringifyFields : List (String × JSVal) → List String
  | [] => []
  | (k, v) :: rest => (jsonQuote k ++ ":" ++ jsonStringify v) :: jsonStringifyFields rest

end

/-- The `through` transform applied to each streamed chunk: non-strings
are `JSON.stringify`ed, and a chunk whose last character is not `'\n'`
gets one appended (`chunk[chunk.length - 1] !== '\n'`). -/
def frameStreamChunk (item : JSVal) : String :=
  let chunk := match item with
    | JSVal.str s => s
    | v => jsonStringify v
  if chunk.data.getLast? == some '\n' then chunk else chunk ++ "\n"

/-- The full chunk sequence written for a streaming response whose
result stream yields `items` and then ends normally: each item framed by
the `through` transform, then `sendStreamEnd` writes
`JSON.stringify({ success: true }) + '\n'`. -/
def streamSuccessChunks (items : List JSVal) : List String :=
  items.map frameStreamChunk
    ++ [jsonStringify (JSVal.obj [("success", JSVal.bool true)]) ++ "\n"]

/-! KeepAlive (lib/keep-alive.js)

The timer world makes `setInterval` / `clearInterval` explicit: fresh
interval ids are allocated in sequence and `active` lists the interval
timers currently scheduled on behalf of this `KeepAlive` instance. -/

/-- The interval-timer world owned by one `KeepAlive` instance. -/
structure TimerWorld where
  nextId : Nat
  active : List Nat

/-- State of a `KeepAlive` object: the filler-write period and
`this.intervalId`. -/
structure KeepAliveState where
  interval : Int
  intervalId : Option Nat

/-- The `KeepAlive` constructor:
`this.interval = _.isNumber(interval) ? interval : 10000`.  The missing
argument is the value `undefined`. -/
def KeepAlive.make (interval : JSVal) : KeepAliveState :=
  { interval := match interval with
      | JSVal.num n => n
      | _ => 10000,
    intervalId := none }

/-- The method `KeepAlive.stop()`: clear the interval if one is scheduled. -/
def keepAliveStop (ka : KeepAliveState) (w : TimerWorld) :
    KeepAliveState × TimerWorld :=
  match ka.intervalId with
  | some i => ({ ka with intervalId := none }, { w with active := w.active.erase i })
  | none => (ka, w)

/-- The method `KeepAlive.start()`: run `this.stop()` first, then schedule a fresh
interval timer. -/
def keepAliveStart (ka : KeepAliveState) (w : TimerWorld) :
    KeepAliveState × TimerWorld :=
  let p := keepAliveStop ka w
  ({ p.1 with intervalId := some p.2.nextId },
   { nextId := p.2.nextId + 1, active := p.2.active ++ [p.2.nextId] })

/-- A call sequence against one `KeepAlive` instance. -/
inductive KAOp where
  | start : KAOp
  | stop : KAOp

/-- Run a sequence of `start()` / `stop()` calls. -/
def runKeepAliveOps (ops : List KAOp) (s : KeepAliveState × TimerWorld) :
    KeepAliveState × TimerWorld :=
  ops.foldl (fun s op =>
    match op with
    | KAOp.start => keepAliveStart s.1 s.2
    | KAOp.stop => keepAliveStop s.1 s.2) s

/-- The `KeepAlive` state invariant: the active timers are exactly the
one tracked by `intervalId` (if any), and tracked ids are in range. -/
def kaInvariant (s : KeepAliveState × TimerWorld) : Prop :=
  match s.1.intervalId with
  | some i => s.2.active = [i] ∧ i < s.2.nextId
  | none => s.2.active = []

/-! Claim C1: pre/call-phase short-circuit semantics -/

/-- A call middleware that returns the plain value `0` — non-undefined
but falsy. -/
def c1ReturnZeroMW : Middleware Nat := fun c => (c, MWOutcome.ret (JSVal.num 0))

/-- A call middleware whose observable side effect is bumping a counter
in the context state; it returns no value. -/
def c1CountingMW : Middleware Nat :=
  fun c => ({ c with state := c.state + 1 }, MWOutcome.ret JSVal.undef)

/-- A call middleware that returns the truthy plain value `"r"`. -/
def c1TruthyMW : Middleware Nat := fun c => (c, MWOutcome.ret (JSVal.str "r"))

/-- A fresh call context with a counter state. -/
def c1InitCtx : MWContext Nat := { state := 0 }

/-! Claim C2: post-phase middleware semantics -/

/-- A middleware with the given outcome that bumps a counter in the
context state on each invocation. -/
def mkCountingMW (o : MWOutcome) : Middleware Nat :=
  fun c => ({ c with state := c.state + 1 }, o)

/-! Claim C7: JSON-RPC round trip and result/error exclusivity -/

/-- A call middleware returning the object `{foo:"bar"}`. -/
def c7CallMW : Middleware Unit :=
  fun c => (c, MWOutcome.ret (JSVal.obj [("foo", JSVal.str "bar")]))

/-- A call middleware that returns no value (resolves `undefined`). -/
def c7NoResultMW : Middleware Unit := fun c => (c, MWOutcome.ret JSVal.undef)

/-! Claim C8: structured error shape over RPC and JSON-RPC -/

/-- A call middleware that throws the structured error
`{code: c, message: m}`. -/
def c8ThrowMW (c m : String) : Middleware Unit :=
  fun ctx => (ctx, MWOutcome.exn
    (JSVal.obj [("code", JSVal.str c), ("message", JSVal.str m)]))

/-! Claim C6: the version stamped on call contexts -/

/-- An `APIRouter` with version routers (each carrying one JSON-RPC
interface) for versions 1 and 2, created in ascending order. -/
def c6TwoVersionRouter : APIRouterState :=
  apiRouterVersion (apiRouterVersion emptyAPIRouter 1) 2

/-! Claim C3/C4: version-match semantics -/

/-- Join parts with commas, the inverse of `splitComma`. -/
def joinComma : List (List Char) → List Char
  | [] => []
  | [p] => p
  | p :: q :: ps => p ++ ',' :: joinComma (q :: ps)

/-- A nonempty decimal digit string — the numeral strings of the
version-expression grammar. -/
def isNumeralList (a : List Char) : Bool := !a.isEmpty && a.all Char.isDigit

instance {ε α : Type} [DecidableEq ε] [DecidableEq α] : DecidableEq (Except ε α)
  | Except.ok a, Except.ok b =>
    if h : a = b then isTrue (by rw [h]) else isFalse (fun hh => h (Except.ok.inj hh))
  | Except.ok _, Except.error _ => isFalse (fun hh => Except.noConfusion hh)
  | Except.error _, Except.ok _ => isFalse (fun hh => Except.noConfusion hh)
  | Except.error e, Except.error f =>
    if h : e = f then isTrue (by rw [h])
    else isFalse (fun hh => h (Except.error.inj hh))

/-! Theorems -/

/-- Parts produced by `splitComma` contain no comma themselves. -/
theorem splitComma_no_comma (l : List Char) :
    ∀ p ∈ splitComma l, ',' ∉ p := by
  induction l with
  | nil =>
    intro p hp
    simp [splitComma] at hp
    simp [hp]
  | cons c rest ih =>
    intro p hp
    by_cases hc : c = ','
    · subst hc
      simp [splitComma] at hp
      rcases hp with hp | hp
      · simp [hp]
      · exact ih p hp
    · simp [splitComma, hc] at hp
      rcases hsplit : splitComma rest with - | ⟨q, qs⟩
      · rw [hsplit] at hp
        simp at hp
        subst hp
        intro hmem
        exact hc (List.mem_singleton.mp hmem).symm
      · rw [hsplit] at hp
        simp at hp
        rcases hp with hp | hp
        · subst hp
          intro hmem
          rcases List.mem_cons.mp hmem with h | h
          · exact hc h.symm
          · exact ih q (by rw [hsplit]; exact List.mem_cons_self q qs) h
        · exact ih p (by rw [hsplit]; exact List.mem_cons_of_mem q hp)

/-- A comma-free character list is its own single split part. -/
theorem splitComma_of_not_mem {l : List Char} (h : ',' ∉ l) :
    splitComma l = [l] := by
  induction l with
  | nil => simp [splitComma]
  | cons c rest ih =>
    have hc : c ≠ ',' := fun hh => h (by simp [hh])
    have hr : ',' ∉ rest := fun hh => h (List.mem_cons_of_mem c hh)
    simp [splitComma, hc, ih hr]

/-- On a comma-free string the string branch reduces to the
single-expression evaluation, which justifies embedding the comma branch
with `matchSingle` on the (comma-free) parts. -/
theorem matchStringExpr_no_comma {l : List Char} (h : ',' ∉ l) (v : Int) :
    matchStringExpr l v = matchSingle l v := by
  simp [matchStringExpr, splitComma_of_not_mem h]

/-- In the post phase every step is exactly `postRunStep`. -/
theorem runMiddlewareStep_post (ctx : MWContext σ) (mw : Middleware σ) :
    runMiddlewareStep true ctx mw = postRunStep ctx mw := by
  unfold runMiddlewareStep postRunStep
  simp

/-- A pre/call-phase run over a context that already has a truthy result
or error leaves the context untouched: every middleware is skipped. -/
theorem runCallMiddleware_skip_all {σ : Type} (mws : List (Middleware σ))
    (ctx : MWContext σ) (h : (truthy ctx.result || truthy ctx.error) = true) :
    runCallMiddleware ctx false mws = ctx := by
  induction mws with
  | nil => rfl
  | cons mw rest ih =>
    have hstep : runMiddlewareStep false ctx mw = ctx := by
      unfold runMiddlewareStep
      simp [h]
    simpa [runCallMiddleware, hstep] using ih

/-- Sequential composition: running an appended list is running the two
pieces in order. -/
theorem runCallMiddleware_append {σ : Type} (isPost : Bool)
    (l1 l2 : List (Middleware σ)) (ctx : MWContext σ) :
    runCallMiddleware ctx isPost (l1 ++ l2) =
      runCallMiddleware (runCallMiddleware ctx isPost l1) isPost l2 := by
  simp [runCallMiddleware, List.foldl_append]

/-! Claim C10: KeepAlive timer discipline -/

/-- The call `stop()` preserves the timer invariant. -/
theorem kaInvariant_stop (ka : KeepAliveState) (w : TimerWorld)
    (h : kaInvariant (ka, w)) : kaInvariant (keepAliveStop ka w) := by
  rcases hid : ka.intervalId with - | i
  · simpa [keepAliveStop, hid] using h
  · unfold kaInvariant at h
    rw [hid] at h
    simp [keepAliveStop, hid, kaInvariant, h.1]
    exact Or.inr h.1

/-- After `stop()` no interval is scheduled. -/
theorem keepAliveStop_cleared (ka : KeepAliveState) (w : TimerWorld)
    (h : kaInvariant (ka, w)) :
    (keepAliveStop ka w).1.intervalId = none ∧ (keepAliveStop ka w).2.active = [] := by
  rcases hid : ka.intervalId with - | i
  · unfold kaInvariant at h
    rw [hid] at h
    simp [keepAliveStop, hid, h]
    exact h
  · unfold kaInvariant at h
    rw [hid] at h
    simp [keepAliveStop, hid, h.1]
    exact Or.inr h.1

/-- The call `start()` preserves the timer invariant. -/
theorem kaInvariant_start (ka : KeepAliveState) (w : TimerWorld)
    (h : kaInvariant (ka, w)) : kaInvariant (keepAliveStart ka w) := by
  have hc := keepAliveStop_cleared ka w h
  unfold keepAliveStart kaInvariant
  simp [hc.2]

/-- Every `start()`/`stop()` sequence preserves the timer invariant. -/
theorem runKeepAliveOps_invariant (ops : List KAOp)
    (s : KeepAliveState × TimerWorld) (h : kaInvariant s) :
    kaInvariant (runKeepAliveOps ops s) := by
  induction ops generalizing s with
  | nil => exact h
  | cons op rest ih =>
    have hstep : kaInvariant (match op with
        | KAOp.start => keepAliveStart s.1 s.2
        | KAOp.stop => keepAliveStop s.1 s.2) := by
      cases op
      · exact kaInvariant_start s.1 s.2 h
      · exact kaInvariant_stop s.1 s.2 h
    cases op
    · exact ih _ hstep
    · exact ih _ hstep

/-- C10: over every sequence of `start()`/`stop()` calls on a
KeepAlive object at most one interval timer is scheduled at any moment
(a `start()` always clears the previous timer first); `stop()` is
idempotent (with no scheduled timer it is a no-op); and a missing or
non-numeric constructor argument defaults the write period to 10000
milliseconds. -/
theorem keepAlive_timer_discipline :
    (∀ (arg : JSVal) (ops : List KAOp),
      ((runKeepAliveOps ops
          (KeepAlive.make arg, { nextId := 0, active := [] })).2).active.length ≤ 1)
    ∧ (∀ (ka : KeepAliveState) (w : TimerWorld),
        keepAliveStop (keepAliveStop ka w).1 (keepAliveStop ka w).2 =
          keepAliveStop ka w)
    ∧ (∀ (arg : JSVal), (∀ n : Int, arg ≠ JSVal.num n) →
        (KeepAlive.make arg).interval = 10000) := by
  refine ⟨fun arg ops => ?_, fun ka w => ?_, fun arg h => ?_⟩
  · have hinit : kaInvariant (KeepAlive.make arg, { nextId := 0, active := [] }) := by
      simp [kaInvariant, KeepAlive.make]
    have hinv := runKeepAliveOps_invariant ops _ hinit
    unfold kaInvariant at hinv
    rcases hid : (runKeepAliveOps ops
        (KeepAlive.make arg, { nextId := 0, active := [] })).1.intervalId with - | i
    · rw [hid] at hinv
      simp [hinv]
    · rw [hid] at hinv
      simp [hinv.1]
  · rcases hid : ka.intervalId with - | i
    · simp [keepAliveStop, hid]
    · simp [keepAliveStop, hid]
  · cases arg with
    | num n => exact absurd rfl (h n)
    | undef => rfl
    | null => rfl
    | bool b => rfl
    | str s => rfl
    | arr l => rfl
    | obj fs => rfl

/-- Witness for C10 at concrete inputs: two consecutive `start()` calls
leave at most one scheduled timer, and a non-numeric interval argument
falls back to 10000. -/
theorem keepAlive_timer_discipline_witness :
    ((runKeepAliveOps [KAOp.start, KAOp.start]
        (KeepAlive.make JSVal.undef, { nextId := 0, active := [] })).2).active.length ≤ 1
    ∧ (KeepAlive.make (JSVal.str "soon")).interval = 10000 :=
  ⟨keepAlive_timer_discipline.1 JSVal.undef [KAOp.start, KAOp.start],
   keepAlive_timer_discipline.2.2 (JSVal.str "soon")
     (fun _ h => JSVal.noConfusion h)⟩

/-! Claim C9: streaming chunk framing -/

/-- Every framed chunk ends with a newline: the `through` transform
appends one when the chunk's last character is not `'\n'`. -/
theorem frameStreamChunk_newline (item : JSVal) :
    (frameStreamChunk item).data.getLast? = some '\n' := by
  unfold frameStreamChunk
  set chunk : String := (match item with
    | JSVal.str s => s
    | v => jsonStringify v) with hchunk
  by_cases h : chunk.data.getLast? = some '\n'
  · simp [h]
  · have hbe : (chunk.data.getLast? == some '\n') = false := by
      simp [h]
    simp only [hbe, Bool.false_eq_true, if_false]
    rw [String.data_append]
    simp [List.getLast?_concat]

/-- C9: a streaming method whose result stream yields
`["foo", "bar", {"foo":"bar"}]` and ends normally writes exactly the four
newline-terminated chunks `"foo\n"`, `"bar\n"`, `"{\"foo\":\"bar\"}\n"`
and `"{\"success\":true}\n"`; in general the chunk sequence has one
framed line per item plus the terminal success line, each line
newline-terminated (non-strings JSON-stringified, a missing trailing
newline appended). -/
theorem streaming_response_chunks :
    streamSuccessChunks
        [JSVal.str "foo", JSVal.str "bar", JSVal.obj [("foo", JSVal.str "bar")]] =
      ["foo\n", "bar\n", "\x7b\"foo\":\"bar\"\x7d\n", "\x7b\"success\":true\x7d\n"]
    ∧ (∀ items : List JSVal,
        (streamSuccessChunks items).length = items.length + 1
        ∧ (streamSuccessChunks items).all
            (fun c => c.data.getLast? == some '\n') = true) := by
  refine ⟨rfl, fun items => ⟨by simp [streamSuccessChunks], ?_⟩⟩
  rw [List.all_eq_true]
  intro c hc
  unfold streamSuccessChunks at hc
  rcases List.mem_append.mp hc with hmem | hmem
  · obtain ⟨item, -, rfl⟩ := List.mem_map.mp hmem
    simp [frameStreamChunk_newline]
  · have hc' : c = jsonStringify (JSVal.obj [("success", JSVal.bool true)]) ++ "\n" :=
      List.mem_singleton.mp hmem
    subst hc'
    rw [String.data_append]
    simp [List.getLast?_concat]

/-- Counterexample to C1 as stated: the first middleware returns the
non-undefined value `0`, yet `context.result` is not set (the runner
tests truthiness, `if (result)`), and the second middleware still
executes — its side effect (the counter bump) is observable. -/
theorem c1_counterexample :
    (runCallMiddleware c1InitCtx false [c1ReturnZeroMW, c1CountingMW]).result
        = JSVal.undef
    ∧ (runCallMiddleware c1InitCtx false [c1ReturnZeroMW, c1CountingMW]).state = 1 :=
  ⟨rfl, rfl⟩

/-- C1 (amended): pre/call-phase middleware run sequentially in list
order; a phase whose context already holds a truthy result or error
skips every remaining middleware unchanged; and when the middleware
after a clean prefix returns a *truthy* value, that value is written to
`context.result` and all later middleware are skipped, their side
effects absent. -/
theorem c1_amended_short_circuit :
    (∀ (σ : Type) (mws : List (Middleware σ)) (ctx : MWContext σ),
      (truthy ctx.result || truthy ctx.error) = true →
      runCallMiddleware ctx false mws = ctx)
    ∧ (∀ (σ : Type) (pre rest : List (Middleware σ)) (mw : Middleware σ)
        (ctx ctx' : MWContext σ) (v : JSVal),
        (truthy (runCallMiddleware ctx false pre).result
          || truthy (runCallMiddleware ctx false pre).error) = false →
        mw (runCallMiddleware ctx false pre) = (ctx', MWOutcome.ret v) →
        truthy v = true →
        runCallMiddleware ctx false (pre ++ mw :: rest) = { ctx' with result := v }) := by
  refine ⟨fun σ mws ctx h => runCallMiddleware_skip_all mws ctx h,
    fun σ pre rest mw ctx ctx' v hclean hmw hv => ?_⟩
  rw [runCallMiddleware_append]
  have hstep : runMiddlewareStep false (runCallMiddleware ctx false pre) mw
      = { ctx' with result := v } := by
    unfold runMiddlewareStep
    rw [hmw]
    simp [hclean, hv]
  have htail : runCallMiddleware ({ ctx' with result := v }) false rest
      = { ctx' with result := v } :=
    runCallMiddleware_skip_all rest _ (by simp [hv])
  calc runCallMiddleware (runCallMiddleware ctx false pre) false (mw :: rest)
      = runCallMiddleware (runMiddlewareStep false (runCallMiddleware ctx false pre) mw)
          false rest := rfl
    _ = { ctx' with result := v } := by rw [hstep, htail]

/-- Witness for C1 (amended) at concrete inputs: a context that already
holds a result skips the counting middleware, and a truthy return value
short-circuits the remaining middleware. -/
theorem c1_amended_short_circuit_witness :
    runCallMiddleware ({ result := JSVal.str "r", state := 0 } : MWContext Nat)
        false [c1CountingMW]
      = { result := JSVal.str "r", state := 0 }
    ∧ runCallMiddleware c1InitCtx false ([] ++ c1TruthyMW :: [c1CountingMW])
      = { c1InitCtx with result := JSVal.str "r" } :=
  ⟨c1_amended_short_circuit.1 Nat [c1CountingMW] _ rfl,
   c1_amended_short_circuit.2 Nat [] [c1CountingMW] c1TruthyMW
     c1InitCtx c1InitCtx (JSVal.str "r") rfl rfl rfl⟩

/-- The helper `pushExtraError` appends exactly one error. -/
theorem pushExtraError_getD (o : Option (List JSVal)) (e : JSVal) :
    (pushExtraError o e).getD [] = o.getD [] ++ [e] := by
  cases o <;> simp [pushExtraError]

/-- C2: in the post phase every middleware in the list runs
unconditionally in order — the run equals the fold of `postRunStep`,
which has no short-circuit test and discards returned values; middleware
that do not themselves reassign `result`/`error` leave those fields of
the context exactly as the call phase produced them (thrown errors never
overwrite them); `extraErrors` only grows; and each middleware in the
list is invoked exactly once even on a context that already holds an
error (counted via its state side effect). -/
theorem c2_post_phase_runs_all :
    (∀ (σ : Type) (mws : List (Middleware σ)) (ctx : MWContext σ),
      runCallMiddleware ctx true mws = mws.foldl postRunStep ctx)
    ∧ (∀ (σ : Type) (mws : List (Middleware σ)) (ctx : MWContext σ),
        (∀ mw ∈ mws, ∀ c, ((mw c).1).result = c.result ∧ ((mw c).1).error = c.error) →
        (runCallMiddleware ctx true mws).result = ctx.result
          ∧ (runCallMiddleware ctx true mws).error = ctx.error)
    ∧ (∀ (σ : Type) (mws : List (Middleware σ)) (ctx : MWContext σ),
        (∀ mw ∈ mws, ∀ c, ((mw c).1).extraErrors = c.extraErrors) →
        ∃ added, ((runCallMiddleware ctx true mws).extraErrors).getD []
          = (ctx.extraErrors).getD [] ++ added)
    ∧ (∀ (outs : List MWOutcome) (ctx : MWContext Nat),
        (runCallMiddleware ctx true (outs.map mkCountingMW)).state
          = ctx.state + outs.length) := by
  have hfold : ∀ (σ : Type) (mws : List (Middleware σ)) (ctx : MWContext σ),
      runCallMiddleware ctx true mws = mws.foldl postRunStep ctx := by
    intro σ mws ctx
    unfold runCallMiddleware
    have : runMiddlewareStep (σ := σ) true = postRunStep := by
      funext c mw
      exact runMiddlewareStep_post c mw
    rw [this]
  refine ⟨hfold, fun σ mws ctx h => ?_, fun σ mws ctx h => ?_, fun outs ctx => ?_⟩
  · rw [hfold]
    induction mws generalizing ctx with
    | nil => exact ⟨rfl, rfl⟩
    | cons mw rest ih =>
      have hstep : (postRunStep ctx mw).result = ctx.result
          ∧ (postRunStep ctx mw).error = ctx.error := by
        unfold postRunStep
        rcases hmw : mw ctx with ⟨c', out⟩
        have hpres := h mw (List.mem_cons_self mw rest) ctx
        rw [hmw] at hpres
        cases out
        · exact hpres
        · exact hpres
      have ihres := ih (postRunStep ctx mw)
        (fun m hm c => h m (List.mem_cons_of_mem mw hm) c)
      exact ⟨hstep.1 ▸ ihres.1, hstep.2 ▸ ihres.2⟩
  · rw [hfold]
    induction mws generalizing ctx with
    | nil => exact ⟨[], by simp⟩
    | cons mw rest ih =>
      obtain ⟨added, hadded⟩ := ih (postRunStep ctx mw)
        (fun m hm c => h m (List.mem_cons_of_mem mw hm) c)
      have hstep : ∃ here, (postRunStep ctx mw).extraErrors.getD []
          = ctx.extraErrors.getD [] ++ here := by
        unfold postRunStep
        rcases hmw : mw ctx with ⟨c', out⟩
        have hpres := h mw (List.mem_cons_self mw rest) ctx
        rw [hmw] at hpres
        cases out with
        | ret v =>
          have hc : c'.extraErrors = ctx.extraErrors := hpres
          exact ⟨[], by simp [hc]⟩
        | exn e =>
          have hc : c'.extraErrors = ctx.extraErrors := hpres
          exact ⟨[e], by simp [pushExtraError_getD, hc]⟩
      obtain ⟨here, hhere⟩ := hstep
      exact ⟨here ++ added, by
        simp only [List.foldl_cons] at *
        rw [hadded, hhere, List.append_assoc]⟩
  · induction outs generalizing ctx with
    | nil => simp [runCallMiddleware]
    | cons o rest ih =>
      have hstate : (runMiddlewareStep true ctx (mkCountingMW o)).state
          = ctx.state + 1 := by
        unfold runMiddlewareStep mkCountingMW
        cases o <;> simp
      have htail := ih (runMiddlewareStep true ctx (mkCountingMW o))
      simp only [List.map_cons, runCallMiddleware, List.foldl_cons] at *
      rw [htail, hstate]
      simp
      omega

/-- Witness for C2 at concrete inputs: one counting post-middleware that
throws, run over a context already holding a truthy error, leaves
`result`/`error` untouched and extends `extraErrors`. -/
theorem c2_post_phase_runs_all_witness :
    ((runCallMiddleware ({ error := JSVal.str "E", state := 0 } : MWContext Nat) true
        [mkCountingMW (MWOutcome.exn (JSVal.str "boom"))]).result
      = ({ error := JSVal.str "E", state := 0 } : MWContext Nat).result
    ∧ (runCallMiddleware ({ error := JSVal.str "E", state := 0 } : MWContext Nat) true
        [mkCountingMW (MWOutcome.exn (JSVal.str "boom"))]).error
      = ({ error := JSVal.str "E", state := 0 } : MWContext Nat).error)
    ∧ (∃ added,
        ((runCallMiddleware ({ error := JSVal.str "E", state := 0 } : MWContext Nat) true
            [mkCountingMW (MWOutcome.exn (JSVal.str "boom"))]).extraErrors).getD []
          = (({ error := JSVal.str "E", state := 0 } : MWContext Nat).extraErrors).getD []
            ++ added)
    ∧ (runCallMiddleware ({ error := JSVal.str "E", state := 0 } : MWContext Nat) true
        ([MWOutcome.exn (JSVal.str "boom")].map mkCountingMW)).state
      = ({ error := JSVal.str "E", state := 0 } : MWContext Nat).state + 1 :=
  ⟨c2_post_phase_runs_all.2.1 Nat [mkCountingMW (MWOutcome.exn (JSVal.str "boom"))] _
      (fun mw hmw c => by
        rw [List.mem_singleton.mp hmw]
        exact ⟨rfl, rfl⟩),
   c2_post_phase_runs_all.2.2.1 Nat [mkCountingMW (MWOutcome.exn (JSVal.str "boom"))] _
      (fun mw hmw c => by
        rw [List.mem_singleton.mp hmw]
        rfl),
   c2_post_phase_runs_all.2.2.2 [MWOutcome.exn (JSVal.str "boom")] _⟩

/-- Counterexample to C7 as stated: a method whose call middleware sets
no result and raises no error yields the JSON-RPC body
`{id, result: null, error: null}` — *zero* of `result`/`error` non-null,
refuting "in every non-streaming JSON-RPC response exactly one of
result/error is non-null". -/
theorem c7_counterexample :
    (jsonrpcNonStreamingResponse false (JSVal.str "x") [] [c7NoResultMW] []
        ({ state := () } : MWContext Unit)).2.result = JSVal.null
    ∧ (jsonrpcNonStreamingResponse false (JSVal.str "x") [] [c7NoResultMW] []
        ({ state := () } : MWContext Unit)).2.error = JSVal.null :=
  ⟨rfl, rfl⟩

/-- C7 (amended): the round trip holds as stated — a method with no
response schema whose call middleware returns `{foo:"bar"}`, invoked via
JSON-RPC with id `"x"`, yields HTTP 200 with body exactly
`{id:"x", result:{foo:"bar"}, error:null}` — and in every non-streaming
JSON-RPC response *at most one* of `result`/`error` is non-null (exactly
one whenever the call ends with an error or a truthy result; both are
`null` when the call produces neither). -/
theorem c7_amended_round_trip :
    jsonrpcNonStreamingResponse false (JSVal.str "x") [] [c7CallMW] []
        ({ state := () } : MWContext Unit)
      = (200, { id := JSVal.str "x",
                result := JSVal.obj [("foo", JSVal.str "bar")],
                error := JSVal.null })
    ∧ (∀ (σ : Type) (inc : Bool) (reqId : JSVal)
        (pre call post : List (Middleware σ)) (ctx0 : MWContext σ),
        (jsonrpcNonStreamingResponse inc reqId pre call post ctx0).1 = 200
        ∧ ((jsonrpcNonStreamingResponse inc reqId pre call post ctx0).2.result = JSVal.null
           ∨ (jsonrpcNonStreamingResponse inc reqId pre call post ctx0).2.error = JSVal.null)) := by
  refine ⟨rfl, fun σ inc reqId pre call post ctx0 => ?_⟩
  unfold jsonrpcNonStreamingResponse
  by_cases h : truthy (runCallMiddleware (runCallMiddleware
      (runCallMiddleware ctx0 false pre) false call) true post).error = true
  · simp [h]
  · simp [h]

/-- C8: a method whose middleware raises the structured error
`{code:"not_modified", message:"m"}` (any code/message strings) is
answered by the JSON-RPC adapter with HTTP 200 and an `error` carrying
exactly that code and message, by the HTTP-RPC adapter with HTTP 200, no
`result` and the same serialized error, and with
`includeErrorStack=false` the serialized error carries no `stack`
field. -/
theorem structured_error_response_shape :
    ∀ (c m : String),
      jsonrpcNonStreamingResponse false (JSVal.str "x") [] [c8ThrowMW c m] []
          ({ state := () } : MWContext Unit)
        = (200, { id := JSVal.str "x",
                  result := JSVal.null,
                  error := JSVal.obj [("code", JSVal.str c), ("message", JSVal.str m)] })
      ∧ httprpcResponse false [] [c8ThrowMW c m] [] ({ state := () } : MWContext Unit)
        = (200, none,
           some (JSVal.obj [("code", JSVal.str c), ("message", JSVal.str m)]))
      ∧ lookupField [("code", JSVal.str c), ("message", JSVal.str m)] "stack" = none :=
  fun _ _ => ⟨rfl, rfl, rfl⟩

/-- Evaluation of the registration/dispatch code at the C6 failing
input: with version routers 1 and 2, a single `register({method:"m"})`
call (no `versions` restriction) is fanned out to both routers, each of
which stamps `options.version` on the *same shared options object*; a
subsequent invocation of `"m"` through version 1's routes builds a
context whose `version` is 2 — the value left by the last stamping — and
likewise through version 2's routes. -/
theorem c6_version_stamp_evaluation :
    (apiRouterRegister c6TwoVersionRouter "m" none).map
        (fun s => (contextVersionAt s 1 "m", contextVersionAt s 2 "m"))
      = Except.ok (some 2, some 2) := rfl

/-! Claim C5: version filtering of registrations -/

/-- After `insertAssoc` the key is present. -/
theorem insertAssoc_any (l : List (String × Nat)) (k : String) (v : Nat) :
    (insertAssoc l k v).any (fun p => p.1 == k) = true := by
  unfold insertAssoc
  by_cases h : l.any (fun p => p.1 == k) = true
  · rw [if_pos h]
    obtain ⟨x, hx, hxk⟩ := List.any_eq_true.mp h
    refine List.any_eq_true.mpr ⟨(k, v), List.mem_map.mpr ⟨x, hx, ?_⟩, by simp⟩
    simp [hxk]
  · rw [if_neg h]
    simp

/-- Resolving the matching routers with no `versions` expression flags
every router. -/
theorem mapM_routerMatches_none (rs : List VersionRouterState) :
    rs.mapM (fun r => routerMatches none r.version)
      = Except.ok (rs.map (fun _ => true)) := by
  induction rs with
  | nil => rfl
  | cons r rest ih =>
    rw [List.mapM_cons, ih]
    rfl

/-- Fanning a registration out with every flag set registers the method
on every router, preserving the router count. -/
theorem fanOutRegister_all_true (m : String) (optsId : Nat) :
    ∀ (rs : List VersionRouterState) (store : List RegOptions) (o : RegOptions),
      store[optsId]? = some o → o.method = m →
      ((fanOutRegister optsId (rs.zip (rs.map (fun _ => true))) store).1.length
          = rs.length
       ∧ (fanOutRegister optsId (rs.zip (rs.map (fun _ => true))) store).1.all
          (fun r => hasMethod r m) = true) := by
  intro rs
  induction rs with
  | nil =>
    intro store o h hm
    simp [fanOutRegister]
  | cons r rest ih =>
    intro store o h hm
    have hlt : optsId < store.length := (List.getElem?_eq_some.mp h).1
    have hset : (store.set optsId { o with version := some r.version })[optsId]?
        = some { o with version := some r.version } := by
      simp [List.getElem?_set_self, hlt]
    have hreg : versionRouterRegister r store optsId
        = ({ r with
              methods := insertAssoc r.methods o.method optsId,
              ifaces := r.ifaces.map (fun f =>
                { f with methods := insertAssoc f.methods o.method optsId }) },
           store.set optsId { o with version := some r.version }) := by
      unfold versionRouterRegister
      rw [h]
    have ihres := ih (store.set optsId { o with version := some r.version })
      { o with version := some r.version } hset hm
    simp only [List.map_cons, List.zip_cons_cons]
    unfold fanOutRegister
    rw [if_pos rfl, hreg]
    dsimp only
    constructor
    · rw [List.length_cons, ihres.1, List.length_cons]
    · rw [List.all_cons]
      refine (Bool.and_eq_true _ _).mpr ⟨?_, ihres.2⟩
      unfold hasMethod
      dsimp only
      rw [hm]
      exact insertAssoc_any r.methods m optsId

/-- The method `APIRouter.register` with no `versions` expression, spelled out. -/
theorem apiRouterRegister_none_eq (s : APIRouterState) (m : String) :
    apiRouterRegister s m none = Except.ok
      { optionsStore :=
          (fanOutRegister s.optionsStore.length
            (s.routers.zip (s.routers.map (fun _ => true)))
            (s.optionsStore ++ [{ method := m, versions := none, version := none }])).2,
        routers :=
          (fanOutRegister s.optionsStore.length
            (s.routers.zip (s.routers.map (fun _ => true)))
            (s.optionsStore ++ [{ method := m, versions := none, version := none }])).1 } := by
  unfold apiRouterRegister
  rw [mapM_routerMatches_none]
  rfl

/-- C5: registering with `versions:["1-2","4-"]` on an `APIRouter` with
version routers 1–5 records the method exactly on routers 1, 2, 4 and 5
and not on 3; and with `options.versions` absent the registration
reaches every router existing at registration time while a router
created afterwards does not receive it. -/
theorem c5_version_filtering :
    (apiRouterRegister
        (apiRouterVersion (apiRouterVersion (apiRouterVersion (apiRouterVersion
          (apiRouterVersion emptyAPIRouter 1) 2) 3) 4) 5) "m"
        (some (JSVal.arr [JSVal.str "1-2", JSVal.str "4-"]))).map
        (fun s => s.routers.map (fun r => (r.version, hasMethod r "m")))
      = Except.ok [(1, true), (2, true), (3, false), (4, true), (5, true)]
    ∧ (∀ (s s' : APIRouterState) (m : String),
        apiRouterRegister s m none = Except.ok s' →
        (s'.routers.length = s.routers.length
         ∧ s'.routers.all (fun r => hasMethod r m) = true
         ∧ ∀ v : Int, s'.routers.all (fun r => r.version != v) = true →
             ((apiRouterVersion s' v).routers.getLast?).map (fun r => hasMethod r m)
               = some false)) := by
  refine ⟨rfl, fun s s' m hreg => ?_⟩
  rw [apiRouterRegister_none_eq] at hreg
  injection hreg with hs'
  have hstore : (s.optionsStore
      ++ [{ method := m, versions := none, version := none }])[s.optionsStore.length]?
      = some { method := m, versions := none, version := none } :=
    List.getElem?_concat_length _ _
  have hfan := fanOutRegister_all_true m s.optionsStore.length s.routers
    (s.optionsStore ++ [{ method := m, versions := none, version := none }])
    { method := m, versions := none, version := none } hstore rfl
  refine ⟨?_, ?_, ?_⟩
  · rw [← hs']
    exact hfan.1
  · rw [← hs']
    exact hfan.2
  · intro v hfresh
    have hany : (s'.routers.any (fun r => r.version == v)) = false := by
      rw [List.any_eq_false]
      intro r hr
      have := List.all_eq_true.mp hfresh r hr
      simpa using this
    unfold apiRouterVersion
    rw [if_neg (by simp [hany])]
    simp only []
    rw [List.getLast?_concat]
    rfl

/-- Witness for C5's general fan-out at a concrete input: one version
router, one registration with `versions` absent. -/
theorem c5_version_filtering_witness :
    ({ optionsStore := [{ method := "m", versions := none, version := some 1 }],
       routers := [{ version := 1, methods := [("m", 0)],
                     ifaces := [{ methods := [("m", 0)] }] }] } :
        APIRouterState).routers.all (fun r => hasMethod r "m") = true
    ∧ ((apiRouterVersion
          ({ optionsStore := [{ method := "m", versions := none, version := some 1 }],
             routers := [{ version := 1, methods := [("m", 0)],
                           ifaces := [{ methods := [("m", 0)] }] }] } : APIRouterState)
          2).routers.getLast?).map (fun r => hasMethod r "m") = some false := by
  have h := c5_version_filtering.2 (apiRouterVersion emptyAPIRouter 1)
    ({ optionsStore := [{ method := "m", versions := none, version := some 1 }],
       routers := [{ version := 1, methods := [("m", 0)],
                     ifaces := [{ methods := [("m", 0)] }] }] } : APIRouterState)
    "m" rfl
  exact ⟨h.2.1, h.2.2 2 rfl⟩

theorem isDigit_ne_dash {c : Char} (h : c.isDigit = true) : c ≠ '-' := by
  intro he
  rw [he] at h
  exact absurd h (by decide)

theorem isDigit_ne_plus {c : Char} (h : c.isDigit = true) : c ≠ '+' := by
  intro he
  rw [he] at h
  exact absurd h (by decide)

theorem no_comma_of_digits {a : List Char} (ha : a.all Char.isDigit = true) :
    ',' ∉ a := by
  intro hmem
  have h2 := List.all_eq_true.mp ha _ hmem
  exact absurd h2 (by decide)

theorem all_digits_false_of_mem {l : List Char} {c : Char} (hc : c ∈ l)
    (h : c.isDigit = false) : l.all Char.isDigit = false :=
  List.all_eq_false.mpr ⟨c, hc, by simp [h]⟩

theorem all_cons_split {d : Char} {a : List Char}
    (h : (d :: a).all Char.isDigit = true) :
    d.isDigit = true ∧ a.all Char.isDigit = true := by
  rw [List.all_cons, Bool.and_eq_true] at h
  exact h

/-- Splitting `takeWhile`/`dropWhile` over a digit run followed by a non-digit. -/
theorem takeWhile_digits_append (a t : List Char) (ha : a.all Char.isDigit = true)
    (ht : ∀ c, t.head? = some c → c.isDigit = false) :
    (a ++ t).takeWhile Char.isDigit = a ∧ (a ++ t).dropWhile Char.isDigit = t := by
  induction a with
  | nil =>
    cases t with
    | nil => exact ⟨rfl, rfl⟩
    | cons c t' =>
      have hc := ht c rfl
      simp [List.takeWhile_cons, List.dropWhile_cons, hc]
  | cons d a' ih =>
    have hd : d.isDigit = true := (all_cons_split ha).1
    have ha' : a'.all Char.isDigit = true := (all_cons_split ha).2
    have := ih ha'
    simp [List.takeWhile_cons, List.dropWhile_cons, hd, this.1, this.2]

/-- Digit characters never equal a character that is not a digit. -/
theorem isDigit_char_ne {c c' : Char} (h : c.isDigit = true)
    (h' : c'.isDigit = false) : c ≠ c' := by
  intro he
  rw [he, h'] at h
  exact Bool.noConfusion h

/-- Digit characters are not JS whitespace. -/
theorem isJSSpace_eq_false_of_digit {c : Char} (h : c.isDigit = true) :
    isJSSpace c = false := by
  cases hs : isJSSpace c
  · rfl
  · unfold isJSSpace at hs
    simp only [Bool.or_eq_true, beq_iff_eq] at hs
    rcases hs with ((hs | hs) | hs) | hs <;> rw [hs] at h <;>
      exact absurd h (by decide)

/-- A list with no character satisfying the test is left whole by
`dropWhile`. -/
theorem dropWhile_eq_self_of_all_false {p : Char → Bool} (l : List Char)
    (h : ∀ c ∈ l, p c = false) : l.dropWhile p = l := by
  cases l with
  | nil => rfl
  | cons c rest =>
    rw [List.dropWhile_cons, h c (List.mem_cons_self c rest)]
    simp

/-- Trimming leaves a string without JS whitespace unchanged. -/
theorem trimJS_eq_self {l : List Char} (h : ∀ c ∈ l, isJSSpace c = false) :
    trimJS l = l := by
  unfold trimJS
  rw [dropWhile_eq_self_of_all_false l h,
    dropWhile_eq_self_of_all_false l.reverse
      (fun c hc => h c (List.mem_reverse.mp hc)),
    List.reverse_reverse]

/-- On a list all of whose characters satisfy the test, `takeWhile` is
the whole list. -/
theorem takeWhile_all_eq_self {p : Char → Bool} :
    ∀ l : List Char, l.all p = true → l.takeWhile p = l := by
  intro l
  induction l with
  | nil => intro _; rfl
  | cons c rest ih =>
    intro h
    rw [List.all_cons, Bool.and_eq_true] at h
    rw [List.takeWhile_cons, h.1]
    simp [ih h.2]

/-- On a list all of whose characters satisfy the test, `dropWhile` is
empty. -/
theorem dropWhile_all_eq_nil {p : Char → Bool} :
    ∀ l : List Char, l.all p = true → l.dropWhile p = [] := by
  intro l
  induction l with
  | nil => intro _; rfl
  | cons c rest ih =>
    intro h
    rw [List.all_cons, Bool.and_eq_true] at h
    rw [List.dropWhile_cons, h.1]
    simp [ih h.2]

/-- The radix-literal parse fails whenever the second character is not a
radix marker. -/
theorem parseRadixJS_eq_none {l : List Char}
    (h : ∀ c2, l.tail.head? = some c2 →
      c2 ≠ 'x' ∧ c2 ≠ 'X' ∧ c2 ≠ 'b' ∧ c2 ≠ 'B' ∧ c2 ≠ 'o' ∧ c2 ≠ 'O') :
    parseRadixJS l = none := by
  cases l with
  | nil => rfl
  | cons c0 t =>
    cases t with
    | nil => rfl
    | cons c1 rest =>
      have h1 := h c1 rfl
      unfold parseRadixJS
      dsimp only
      rw [if_neg (fun hcon =>
          hcon.2.elim (fun h' => h1.1 h') (fun h' => h1.2.1 h')),
        if_neg (fun hcon =>
          hcon.2.elim (fun h' => h1.2.2.1 h') (fun h' => h1.2.2.2.1 h')),
        if_neg (fun hcon =>
          hcon.2.elim (fun h' => h1.2.2.2.2.1 h') (fun h' => h1.2.2.2.2.2 h'))]

/-- Numeric coercion of a nonempty digit string: no trimming applies, no
radix or sign path is taken, and the decimal parse yields exactly the
digit value. -/
theorem jsStrToNum_digits {a : List Char} (h0 : a ≠ [])
    (hd : a.all Char.isDigit = true) :
    jsStrToNum a = JSCoerce.intVal (digitsVal a) := by
  obtain ⟨d, a0, rfl⟩ : ∃ d a0, a = d :: a0 := by
    cases a
    · exact absurd rfl h0
    · exact ⟨_, _, rfl⟩
  have hdd : d.isDigit = true := (all_cons_split hd).1
  have htrim : trimJS (d :: a0) = d :: a0 :=
    trimJS_eq_self (fun c hc =>
      isJSSpace_eq_false_of_digit (List.all_eq_true.mp hd c hc))
  have hradix : parseRadixJS (d :: a0) = none := by
    apply parseRadixJS_eq_none
    intro c2 hc2
    have hc2d : c2.isDigit = true := by
      cases a0 with
      | nil => exact absurd hc2 (by simp)
      | cons x xs =>
        have hx : x = c2 := by simpa using hc2
        exact hx ▸ List.all_eq_true.mp (all_cons_split hd).2 x
          (List.mem_cons_self x xs)
    exact ⟨isDigit_char_ne hc2d (by decide), isDigit_char_ne hc2d (by decide),
      isDigit_char_ne hc2d (by decide), isDigit_char_ne hc2d (by decide),
      isDigit_char_ne hc2d (by decide), isDigit_char_ne hc2d (by decide)⟩
  have hinf : (d :: a0) ≠ ['I', 'n', 'f', 'i', 'n', 'i', 't', 'y'] := by
    intro he
    injection he with h1 _
    rw [h1] at hdd
    exact absurd hdd (by decide)
  have hplus : ¬d = '+' := isDigit_char_ne hdd (by decide)
  have hminus : ¬d = '-' := isDigit_char_ne hdd (by decide)
  unfold jsStrToNum
  rw [htrim, hradix]
  simp only [List.isEmpty_cons, Bool.false_eq_true, if_false]
  rw [if_neg hplus, if_neg hminus]
  unfold parseDecOrInf
  rw [if_neg hinf]
  unfold parseDecimal
  rw [dropWhile_all_eq_nil _ hd, takeWhile_all_eq_self _ hd]
  simp only [List.isEmpty_cons, Bool.false_eq_true, if_false]
  unfold mkDecimal
  rw [if_pos (le_refl (0 : Int))]
  simp

/-- Numeric coercion is NaN on a digit run followed by a stray sign
character (the `"N-M"`, `"N+"` and `"N-"` shapes): the decimal parse
consumes the digits and rejects the remainder. -/
theorem jsStrToNum_digits_sign_nan (a : List Char) (c0 : Char) (t' : List Char)
    (ha0 : a ≠ []) (ha : a.all Char.isDigit = true)
    (hc0 : c0 = '-' ∨ c0 = '+')
    (ht' : ∀ c ∈ t', isJSSpace c = false) :
    jsStrToNum (a ++ c0 :: t') = JSCoerce.nan := by
  obtain ⟨d, a0, rfl⟩ : ∃ d a0, a = d :: a0 := by
    cases a
    · exact absurd rfl ha0
    · exact ⟨_, _, rfl⟩
  have hdd : d.isDigit = true := (all_cons_split ha).1
  have hc0space : isJSSpace c0 = false := by
    rcases hc0 with h | h <;> rw [h] <;> decide
  have htrim : trimJS ((d :: a0) ++ c0 :: t') = (d :: a0) ++ c0 :: t' := by
    apply trimJS_eq_self
    intro c hc
    rcases List.mem_append.mp hc with hc | hc
    · exact isJSSpace_eq_false_of_digit (List.all_eq_true.mp ha c hc)
    · rcases List.mem_cons.mp hc with hc | hc
      · rw [hc]
        exact hc0space
      · exact ht' c hc
  have hradix : parseRadixJS ((d :: a0) ++ c0 :: t') = none := by
    apply parseRadixJS_eq_none
    intro c2 hc2
    have hc2cases : c2.isDigit = true ∨ c2 = c0 := by
      cases a0 with
      | nil =>
        right
        have h' : c0 = c2 := by simpa using hc2
        exact h'.symm
      | cons x xs =>
        left
        have hx : x = c2 := by simpa using hc2
        exact hx ▸ List.all_eq_true.mp (all_cons_split ha).2 x
          (List.mem_cons_self x xs)
    rcases hc2cases with hc2d | hc2s
    · exact ⟨isDigit_char_ne hc2d (by decide), isDigit_char_ne hc2d (by decide),
        isDigit_char_ne hc2d (by decide), isDigit_char_ne hc2d (by decide),
        isDigit_char_ne hc2d (by decide), isDigit_char_ne hc2d (by decide)⟩
    · rw [hc2s]
      rcases hc0 with h | h <;> rw [h] <;> exact (by decide)
  have hinf : (d :: a0) ++ c0 :: t' ≠ ['I', 'n', 'f', 'i', 'n', 'i', 't', 'y'] := by
    rw [List.cons_append]
    intro he
    injection he with h1 _
    rw [h1] at hdd
    exact absurd hdd (by decide)
  have hplus : ¬d = '+' := isDigit_char_ne hdd (by decide)
  have hminus : ¬d = '-' := isDigit_char_ne hdd (by decide)
  have hwhile := takeWhile_digits_append (d :: a0) (c0 :: t') ha
    (fun c hch => by
      have h' : c0 = c := by simpa using hch
      rw [← h']
      rcases hc0 with h | h <;> rw [h] <;> decide)
  have hc0dot : ¬c0 = '.' := by
    rcases hc0 with h | h <;> rw [h] <;> decide
  have hc0exp : ¬(c0 = 'e' ∨ c0 = 'E') := by
    rcases hc0 with h | h <;> rw [h] <;> decide
  unfold jsStrToNum
  rw [htrim, hradix]
  simp only [List.cons_append, List.isEmpty_cons, Bool.false_eq_true, if_false]
  rw [if_neg hplus, if_neg hminus]
  unfold parseDecOrInf
  rw [if_neg (by simpa using hinf)]
  unfold parseDecimal
  rw [show (d :: (a0 ++ c0 :: t')).dropWhile Char.isDigit = c0 :: t' by
      simpa using hwhile.2]
  dsimp only
  rw [if_neg hc0dot]
  rw [show (d :: (a0 ++ c0 :: t')).takeWhile Char.isDigit = d :: a0 by
      simpa using hwhile.1]
  simp only [List.isEmpty_cons, Bool.false_eq_true, if_false]
  unfold parseExpPart
  dsimp only
  rw [if_neg hc0exp]

/-- The pre/call guard of `matchSingle` fails when the coercion is
NaN. -/
theorem matchSingle_guard_false_of_nan {l : List Char}
    (hnan : jsStrToNum l = JSCoerce.nan) :
    ((l.head? != some '-') && !(jsCoerceIsNaN (jsStrToNum l))) = false := by
  rw [hnan]
  simp [jsCoerceIsNaN]

/-- With a failing pre-guard, `matchSingle` proceeds to the regex
cascade. -/
theorem matchSingle_of_guard_false {l : List Char} {v : Int}
    (hguard : ((l.head? != some '-') && !(jsCoerceIsNaN (jsStrToNum l))) = false) :
    matchSingle l v
      = (match reOpenEnded l with
         | some n => Except.ok (decide (v ≥ (n : Int)))
         | none =>
           match reUpTo l with
           | some n => Except.ok (decide (v ≤ (n : Int)))
           | none =>
             match reRange l with
             | some (n, m) => Except.ok (decide ((n : Int) ≤ v ∧ v ≤ (m : Int)))
             | none => Except.error VMError.invalidExpression) := by
  unfold matchSingle
  rw [hguard]
  simp

/-- With a passing pre-guard, `matchSingle` is the numeric-coercion
comparison. -/
theorem matchSingle_of_guard_true {l : List Char} {v : Int}
    (hguard : ((l.head? != some '-') && !(jsCoerceIsNaN (jsStrToNum l))) = true) :
    matchSingle l v = Except.ok (jsCoerceEqInt (jsStrToNum l) v) := by
  unfold matchSingle
  rw [hguard]
  simp

/-- Evaluation of `matchSingle` on `"N-M"`. -/
theorem matchSingle_range (a b : List Char) (v : Int) (ha0 : a ≠ [])
    (ha : a.all Char.isDigit = true) (hb0 : b ≠ [])
    (hb : b.all Char.isDigit = true) :
    matchSingle (a ++ '-' :: b) v
      = Except.ok (decide ((digitsVal a : Int) ≤ v ∧ v ≤ (digitsVal b : Int))) := by
  obtain ⟨d, a0, rfl⟩ : ∃ d a0, a = d :: a0 := by
    cases a
    · exact absurd rfl ha0
    · exact ⟨_, _, rfl⟩
  have hd : d.isDigit = true := (all_cons_split ha).1
  have hnan := jsStrToNum_digits_sign_nan (d :: a0) '-' b ha0 ha (Or.inl rfl)
    (fun c hc => isJSSpace_eq_false_of_digit (List.all_eq_true.mp hb c hc))
  have hguard := matchSingle_guard_false_of_nan hnan
  have hwhile := takeWhile_digits_append (d :: a0) ('-' :: b) ha
    (fun c hch => by
      have h' : '-' = c := by simpa using hch
      rw [← h']
      decide)
  have hre1 : reOpenEnded ((d :: a0) ++ '-' :: b) = none := by
    unfold reOpenEnded
    rw [hwhile.2]
    cases b with
    | nil => exact absurd rfl hb0
    | cons b1 b' => rfl
  have hre2 : reUpTo ((d :: a0) ++ '-' :: b) = none := by
    unfold reUpTo
    simp only [List.cons_append]
    rw [if_neg]
    simp [isDigit_ne_dash hd]
  have hb1 : b.isEmpty = false := by
    cases b
    · exact absurd rfl hb0
    · rfl
  have hre3 : reRange ((d :: a0) ++ '-' :: b)
      = some (digitsVal (d :: a0), digitsVal b) := by
    unfold reRange
    rw [hwhile.2, hwhile.1]
    have h1 : ((d :: a0) : List Char).isEmpty = false := rfl
    simp [h1, hb1, hb]
  rw [matchSingle_of_guard_false hguard, hre1]
  dsimp only
  rw [hre2]
  dsimp only
  rw [hre3]

/-- Evaluation of `matchSingle` on `"N+"` / `"N-"`. -/
theorem matchSingle_openEnded (a : List Char) (sign : Char) (v : Int)
    (ha0 : a ≠ []) (ha : a.all Char.isDigit = true)
    (hsign : sign = '+' ∨ sign = '-') :
    matchSingle (a ++ [sign]) v = Except.ok (decide (v ≥ (digitsVal a : Int))) := by
  obtain ⟨d, a0, rfl⟩ : ∃ d a0, a = d :: a0 := by
    cases a
    · exact absurd rfl ha0
    · exact ⟨_, _, rfl⟩
  have hsignd : sign.isDigit = false := by
    rcases hsign with h | h <;> rw [h] <;> decide
  have hnan := jsStrToNum_digits_sign_nan (d :: a0) sign [] ha0 ha hsign.symm
    (fun c hc => absurd hc (List.not_mem_nil c))
  have hguard := matchSingle_guard_false_of_nan hnan
  have hwhile := takeWhile_digits_append (d :: a0) [sign] ha
    (fun c hch => by
      have h' : sign = c := by simpa using hch
      rw [← h']
      exact hsignd)
  have hre1 : reOpenEnded ((d :: a0) ++ [sign])
      = some (digitsVal (d :: a0)) := by
    unfold reOpenEnded
    rw [hwhile.2, hwhile.1]
    have hcond : (sign == '+' || sign == '-') = true := by
      rcases hsign with h | h <;> rw [h] <;> decide
    have h1 : ((d :: a0) : List Char).isEmpty = false := rfl
    simp [hcond, h1]
  rw [matchSingle_of_guard_false hguard, hre1]

/-- Evaluation of `matchSingle` on `"-N"`. -/
theorem matchSingle_upTo (a : List Char) (v : Int) (ha0 : a ≠ [])
    (ha : a.all Char.isDigit = true) :
    matchSingle ('-' :: a) v = Except.ok (decide (v ≤ (digitsVal a : Int))) := by
  have hguard : ((('-' :: a).head? != some '-')
      && !(jsCoerceIsNaN (jsStrToNum ('-' :: a)))) = false := by simp
  have hre1 : reOpenEnded ('-' :: a) = none := by
    unfold reOpenEnded
    have hdrop : ('-' :: a).dropWhile Char.isDigit = '-' :: a := by
      rw [List.dropWhile_cons]
      simp
    rw [hdrop]
    cases a with
    | nil => simp
    | cons a1 a' => rfl
  have h1 : a.isEmpty = false := by
    cases a
    · exact absurd rfl ha0
    · rfl
  have hre2 : reUpTo ('-' :: a) = some (digitsVal a) := by
    unfold reUpTo
    simp [h1, ha]
  rw [matchSingle_of_guard_false hguard, hre1]
  dsimp only
  rw [hre2]

/-- Evaluation of `matchSingle` on a plain numeral string. -/
theorem matchSingle_numeral (a : List Char) (v : Int) (ha0 : a ≠ [])
    (ha : a.all Char.isDigit = true) :
    matchSingle a v = Except.ok (decide ((digitsVal a : Int) = v)) := by
  obtain ⟨d, a0, rfl⟩ : ∃ d a0, a = d :: a0 := by
    cases a
    · exact absurd rfl ha0
    · exact ⟨_, _, rfl⟩
  have hd : d.isDigit = true := (all_cons_split ha).1
  have hjs := jsStrToNum_digits ha0 ha
  have hguard : (((d :: a0).head? != some '-')
      && !(jsCoerceIsNaN (jsStrToNum (d :: a0)))) = true := by
    rw [hjs]
    simp [jsCoerceIsNaN, isDigit_ne_dash hd]
  have hbeq : (((digitsVal (d :: a0) : Int) == v) : Bool)
      = decide ((digitsVal (d :: a0) : Int) = v) := by
    by_cases h : (digitsVal (d :: a0) : Int) = v
    · rw [h]
      simp
    · simp [h]
  rw [matchSingle_of_guard_true hguard, hjs,
    show jsCoerceEqInt (JSCoerce.intVal (digitsVal (d :: a0) : Int)) v
        = (((digitsVal (d :: a0) : Int) == v) : Bool) from rfl,
    hbeq]

/-- The string branch of the matcher, through the constructor. -/
theorem emv_str (l : List Char) (v : Int) :
    expressionMatchesVersion (JSVal.str (String.mk l)) v = matchStringExpr l v := rfl

/-- The array branch of the matcher, through the constructor. -/
theorem emv_arr (l : List JSVal) (v : Int) :
    expressionMatchesVersion (JSVal.arr l) v = someExprMatches l v := rfl

/-- Lodash `_.some` over comma-split parts is true exactly when some part
matches, provided every part evaluates cleanly. -/
theorem matchParts_ok_true_iff (v : Int) :
    ∀ (ps : List (List Char)),
      (∀ p ∈ ps, ∃ b, matchSingle p v = Except.ok b) →
      (matchParts ps v = Except.ok true
        ↔ ∃ p ∈ ps, matchSingle p v = Except.ok true) := by
  intro ps
  induction ps with
  | nil =>
    intro _
    simp [matchParts]
  | cons p rest ih =>
    intro h
    obtain ⟨b, hb⟩ := h p (List.mem_cons_self p rest)
    have ihr := ih (fun q hq => h q (List.mem_cons_of_mem p hq))
    cases b
    · unfold matchParts
      rw [hb]
      dsimp only
      rw [ihr]
      constructor
      · rintro ⟨q, hq, hqt⟩
        exact ⟨q, List.mem_cons_of_mem p hq, hqt⟩
      · rintro ⟨q, hq, hqt⟩
        rcases List.mem_cons.mp hq with hqp | hqr
        · rw [hqp] at hqt
          rw [hb] at hqt
          exact absurd (Except.ok.inj hqt) (by decide)
        · exact ⟨q, hqr, hqt⟩
    · unfold matchParts
      rw [hb]
      dsimp only
      exact ⟨fun _ => ⟨p, List.mem_cons_self p rest, hb⟩, fun _ => rfl⟩

/-- Lodash `_.some` over array elements is true exactly when some element
matches, provided every element evaluates cleanly. -/
theorem someExprMatches_ok_true_iff (v : Int) :
    ∀ (l : List JSVal),
      (∀ e ∈ l, ∃ b, expressionMatchesVersion e v = Except.ok b) →
      (someExprMatches l v = Except.ok true
        ↔ ∃ e ∈ l, expressionMatchesVersion e v = Except.ok true) := by
  intro l
  induction l with
  | nil =>
    intro _
    simp [someExprMatches]
  | cons e rest ih =>
    intro h
    obtain ⟨b, hb⟩ := h e (List.mem_cons_self e rest)
    have ihr := ih (fun q hq => h q (List.mem_cons_of_mem e hq))
    cases b
    · unfold someExprMatches
      rw [hb]
      dsimp only
      rw [ihr]
      constructor
      · rintro ⟨q, hq, hqt⟩
        exact ⟨q, List.mem_cons_of_mem e hq, hqt⟩
      · rintro ⟨q, hq, hqt⟩
        rcases List.mem_cons.mp hq with hqp | hqr
        · rw [hqp] at hqt
          rw [hb] at hqt
          exact absurd (Except.ok.inj hqt) (by decide)
        · exact ⟨q, hqr, hqt⟩
    · unfold someExprMatches
      rw [hb]
      dsimp only
      exact ⟨fun _ => ⟨e, List.mem_cons_self e rest, hb⟩, fun _ => rfl⟩

/-- Splitting with `split(',')` undoes a comma join of comma-free parts (one step). -/
theorem splitComma_append (p rest : List Char) (hp : ',' ∉ p) :
    splitComma (p ++ ',' :: rest) = p :: splitComma rest := by
  induction p with
  | nil => simp [splitComma]
  | cons c p' ih =>
    have hc : ¬ c = ',' := fun hh => hp (by rw [← hh]; exact List.mem_cons_self c p')
    have hp' : ',' ∉ p' := fun hh => hp (List.mem_cons_of_mem c hh)
    show splitComma (c :: (p' ++ ',' :: rest)) = (c :: p') :: splitComma rest
    rw [splitComma, if_neg hc, ih hp']

/-- Splitting with `split(',')` undoes a comma join of comma-free parts. -/
theorem splitComma_joinComma :
    ∀ (ps : List (List Char)), ps ≠ [] → (∀ p ∈ ps, ',' ∉ p) →
      splitComma (joinComma ps) = ps := by
  intro ps
  induction ps with
  | nil =>
    intro h _
    exact absurd rfl h
  | cons p rest ih =>
    intro _ h
    cases rest with
    | nil =>
      exact splitComma_of_not_mem (h p (List.mem_cons_self p []))
    | cons q ps' =>
      show splitComma (p ++ ',' :: joinComma (q :: ps')) = p :: (q :: ps')
      rw [splitComma_append p _ (h p (List.mem_cons_self p (q :: ps')))]
      rw [ih (by simp) (fun r hr => h r (List.mem_cons_of_mem p hr))]

/-- C3: `expressionMatchesVersion` realizes the range semantics — for
numerals `N`, `M` (nonempty digit strings) and every version `v`:
`"N-M"` matches iff `N ≤ v ≤ M`; `"N+"`/`"N-"` match iff `v ≥ N`;
`"-N"` matches iff `v ≤ N`; a bare number or single numeral matches
exactly its own value; and a comma-separated string or an array of
well-formed expressions matches iff at least one element matches. -/
theorem c3_version_match_semantics :
    (∀ (v : Int) (a b : List Char),
      a ≠ [] → a.all Char.isDigit = true → b ≠ [] → b.all Char.isDigit = true →
      digitsVal a ≤ digitsVal b →
      expressionMatchesVersion (JSVal.str (String.mk (a ++ '-' :: b))) v
        = Except.ok (decide ((digitsVal a : Int) ≤ v ∧ v ≤ (digitsVal b : Int))))
    ∧ (∀ (v : Int) (a : List Char) (sign : Char),
        a ≠ [] → a.all Char.isDigit = true → sign = '+' ∨ sign = '-' →
        expressionMatchesVersion (JSVal.str (String.mk (a ++ [sign]))) v
          = Except.ok (decide (v ≥ (digitsVal a : Int))))
    ∧ (∀ (v : Int) (a : List Char),
        a ≠ [] → a.all Char.isDigit = true →
        expressionMatchesVersion (JSVal.str (String.mk ('-' :: a))) v
          = Except.ok (decide (v ≤ (digitsVal a : Int))))
    ∧ (∀ (v n : Int),
        expressionMatchesVersion (JSVal.num n) v = Except.ok (decide (n = v)))
    ∧ (∀ (v : Int) (a : List Char),
        a ≠ [] → a.all Char.isDigit = true →
        expressionMatchesVersion (JSVal.str (String.mk a)) v
          = Except.ok (decide ((digitsVal a : Int) = v)))
    ∧ (∀ (v : Int) (ps : List (List Char)),
        2 ≤ ps.length → (∀ p ∈ ps, ',' ∉ p) →
        (∀ p ∈ ps, ∃ b, matchSingle p v = Except.ok b) →
        (expressionMatchesVersion (JSVal.str (String.mk (joinComma ps))) v
            = Except.ok true
          ↔ ∃ p ∈ ps, matchSingle p v = Except.ok true))
    ∧ (∀ (v : Int) (l : List JSVal),
        (∀ e ∈ l, ∃ b, expressionMatchesVersion e v = Except.ok b) →
        (expressionMatchesVersion (JSVal.arr l) v = Except.ok true
          ↔ ∃ e ∈ l, expressionMatchesVersion e v = Except.ok true)) := by
  refine ⟨?_, ?_, ?_, ?_, ?_, ?_, ?_⟩
  · intro v a b ha0 ha hb0 hb _
    have hnc : ',' ∉ a ++ '-' :: b := by
      intro h
      rcases List.mem_append.mp h with h | h
      · exact no_comma_of_digits ha h
      · rcases List.mem_cons.mp h with h | h
        · exact absurd h (by decide)
        · exact no_comma_of_digits hb h
    rw [emv_str, matchStringExpr_no_comma hnc, matchSingle_range a b v ha0 ha hb0 hb]
  · intro v a sign ha0 ha hsign
    have hnc : ',' ∉ a ++ [sign] := by
      intro h
      rcases List.mem_append.mp h with h | h
      · exact no_comma_of_digits ha h
      · have := List.mem_singleton.mp h
        rcases hsign with hs | hs <;> rw [hs] at this <;> exact absurd this (by decide)
    rw [emv_str, matchStringExpr_no_comma hnc,
      matchSingle_openEnded a sign v ha0 ha hsign]
  · intro v a ha0 ha
    have hnc : ',' ∉ '-' :: a := by
      intro h
      rcases List.mem_cons.mp h with h | h
      · exact absurd h (by decide)
      · exact no_comma_of_digits ha h
    rw [emv_str, matchStringExpr_no_comma hnc, matchSingle_upTo a v ha0 ha]
  · intro v n
    rfl
  · intro v a ha0 ha
    rw [emv_str, matchStringExpr_no_comma (no_comma_of_digits ha),
      matchSingle_numeral a v ha0 ha]
  · intro v ps hlen hnc hok
    have hne : ps ≠ [] := by
      intro h
      rw [h] at hlen
      exact absurd hlen (by decide)
    have hsplit := splitComma_joinComma ps hne hnc
    rw [emv_str]
    unfold matchStringExpr
    rw [hsplit, if_pos (by omega)]
    exact matchParts_ok_true_iff v ps hok
  · intro v l hok
    rw [emv_arr]
    exact someExprMatches_ok_true_iff v l hok

/-- Witness for C3 at concrete inputs covering each expression shape. -/
theorem c3_version_match_semantics_witness :
    expressionMatchesVersion (JSVal.str (String.mk ['1', '-', '3'])) 2 = Except.ok true
    ∧ expressionMatchesVersion (JSVal.str (String.mk ['5', '+'])) 7 = Except.ok true
    ∧ expressionMatchesVersion (JSVal.str (String.mk ['-', '5'])) 7 = Except.ok false
    ∧ expressionMatchesVersion (JSVal.num 4) 4 = Except.ok true
    ∧ expressionMatchesVersion (JSVal.str (String.mk ['5'])) 5 = Except.ok true
    ∧ expressionMatchesVersion (JSVal.str (String.mk (joinComma [['1'], ['3']]))) 3
        = Except.ok true
    ∧ expressionMatchesVersion (JSVal.arr [JSVal.num 1, JSVal.num 3]) 3
        = Except.ok true := by
  refine ⟨?_, ?_, ?_, ?_, ?_, ?_, ?_⟩
  · have h := c3_version_match_semantics.1 2 ['1'] ['3']
      (by decide) (by decide) (by decide) (by decide) (by decide)
    exact h.trans (congrArg Except.ok (by decide))
  · have h := c3_version_match_semantics.2.1 7 ['5'] '+'
      (by decide) (by decide) (Or.inl rfl)
    exact h.trans (congrArg Except.ok (by decide))
  · have h := c3_version_match_semantics.2.2.1 7 ['5'] (by decide) (by decide)
    exact h.trans (congrArg Except.ok (by decide))
  · have h := c3_version_match_semantics.2.2.2.1 4 4
    exact h.trans (congrArg Except.ok (by decide))
  · have h := c3_version_match_semantics.2.2.2.2.1 5 ['5'] (by decide) (by decide)
    exact h.trans (congrArg Except.ok (by decide))
  · have h := c3_version_match_semantics.2.2.2.2.2.1 3 [['1'], ['3']]
      (by decide) (by decide)
      (fun p hp => by
        rcases List.mem_cons.mp hp with h | h
        · exact ⟨false, by rw [h]; decide⟩
        · rw [List.mem_singleton.mp h]
          exact ⟨true, rfl⟩)
    exact h.mpr ⟨['3'], by decide, rfl⟩
  · have h := c3_version_match_semantics.2.2.2.2.2.2 3 [JSVal.num 1, JSVal.num 3]
      (fun e he => by
        rcases List.mem_cons.mp he with h | h
        · exact ⟨false, by rw [h]; decide⟩
        · rw [List.mem_singleton.mp h]
          exact ⟨true, rfl⟩)
    exact h.mpr ⟨JSVal.num 3, by simp, rfl⟩

